import Mathlib

/-!
Verification development for the FSI purchasing/inventory dashboard
(data-reconciliation and reorder-calculation core).

The embedding models the TypeScript sources:
  - src/src/data-processing/worker.ts   (parseNumeric, filterData, reconciler)
  - src/src/utils/calculations.ts       (calculateReorderQty)
  - src/src/hooks/useDataProcessor.ts   (file-type classifier in handleMassUpload)
  - src/index.tsx                       (PURCHASING_LOGIC_CONSTANTS, VENDOR_LEAD_TIMES)

JavaScript numbers are modelled as rationals (ℚ); dynamic CSV cell values
are modelled by the inductive type JSVal covering the value shapes the
pipeline actually receives from the CSV parser (null, undefined, string,
number).  NaN and the IEEE infinities are not representable; the only
place an infinity arises in the source (daysOfSupply) is modelled with
Option ℚ, none standing for Infinity.
-/

/-- Dynamic value of a CSV cell / record field as delivered by the parser. -/
inductive JSVal where
  | null
  | undefined
  | str (s : String)
  | num (q : ℚ)
deriving DecidableEq, Repr

namespace JSVal

/-- Rendering of a rational as a JS-style numeric string.  It is exact for
integral values (the only numeric values any theorem evaluates it on);
non-integral values receive a placeholder num/den rendering that no theorem
relies on. -/
def ratToJsString (q : ℚ) : String :=
  if q.den = 1 then toString q.num else toString q.num ++ "/" ++ toString q.den

/-- Model of the JavaScript String() coercion (template-literal interpolation
and property-key coercion in the worker). -/
def jsToString : JSVal → String
  | .null => "null"
  | .undefined => "undefined"
  | .str s => s
  | .num q => ratToJsString q

/-- Model of JavaScript truthiness for the value shapes of the model
(null, undefined, the empty string and 0 are falsy). -/
def jsTruthy : JSVal → Bool
  | .null => false
  | .undefined => false
  | .str s => s ≠ ""
  | .num q => q ≠ 0

/-- Model of the JavaScript a || b on dynamic values. -/
def jsOr (a b : JSVal) : JSVal := if jsTruthy a then a else b

/-- Model of the JavaScript loose inequality value != null, which is false
exactly on null and undefined. -/
def jsNotNullish : JSVal → Bool
  | .null => false
  | .undefined => false
  | _ => true

end JSVal

/-- Model of the JavaScript x || d on numbers (x is falsy exactly when it is 0;
NaN is outside the model). -/
def jsOrQ (x d : ℚ) : ℚ := if x = 0 then d else x

/-- Whitespace trimming on both ends of a string (model of the trimming done
by String.prototype.trim and by the whitespace skipping of Number()). -/
def jsTrim (s : String) : String :=
  ⟨((s.data.dropWhile Char.isWhitespace).reverse.dropWhile Char.isWhitespace).reverse⟩

/-- Numeric value of a list of decimal digit characters. -/
def digitsVal (cs : List Char) : ℚ :=
  cs.foldl (fun acc c => acc * 10 + ((c.toNat - '0'.toNat : ℕ) : ℚ)) 0

/-- Parse an unsigned decimal literal (digits with at most one dot, at least
one digit), as accepted by the JavaScript Number() conversion. -/
def parseUnsigned (cs : List Char) : Option ℚ :=
  match cs.splitOn '.' with
  | [ip] => if ip ≠ [] ∧ ip.all Char.isDigit then some (digitsVal ip) else none
  | [ip, fp] =>
      if (ip ++ fp) ≠ [] ∧ (ip ++ fp).all Char.isDigit then
        some (digitsVal ip + digitsVal fp / 10 ^ fp.length)
      else none
  | _ => none

/-- Model of the JavaScript Number(string) conversion for the decimal string
forms produced by the ERP CSV exports: surrounding whitespace is trimmed, the
empty (or all-whitespace) string converts to 0, an optional sign precedes a
decimal literal, and every other string converts to NaN (modelled as none).
Exotic accepted forms of full JS (hex, binary, exponent, Infinity) are outside
the model; no theorem evaluates the function on them. -/
def jsNumber (s : String) : Option ℚ :=
  let t := jsTrim s
  if t = "" then some 0
  else
    match t.data with
    | '-' :: rest => (parseUnsigned rest).map (fun q => -q)
    | '+' :: rest => parseUnsigned rest
    | cs => parseUnsigned cs

/-- Strip every comma (thousands separator) from a string, the model of
String(value).replace with the comma pattern in worker.ts. -/
def stripCommas (s : String) : String := ⟨s.data.filter (fun c => c ≠ ',')⟩

/-- Embedding of parseNumeric from worker.ts: null, undefined and the empty
string map to 0; any other value is coerced to a string, has its commas
stripped and is converted by Number(), a failed conversion (NaN) mapping
to 0.  For a numeric input the String()/Number() round trip is the identity
in JavaScript, so the model returns the number directly. -/
def parseNumeric : JSVal → ℚ
  | .null => 0
  | .undefined => 0
  | .str s => if s = "" then 0 else (jsNumber (stripCommas s)).getD 0
  | .num q => q

/-- Embedding of hasRequiredField from worker.ts, at the level of the field
value: null and undefined fail, a string must be non-blank after trimming,
every other value passes.  (The guard on the record object itself in the
source is vacuous in the typed model, where every record exists.) -/
def hasRequiredField : JSVal → Bool
  | .null => false
  | .undefined => false
  | .str s => jsTrim s ≠ ""
  | .num _ => true

/-- Embedding of the generic filterData from worker.ts: keep the records
whose required fields all pass hasRequiredField.  Required fields are given
as projections out of the typed record.  (The Array.isArray guard of the
source is vacuous in the typed model.) -/
def filterData {α : Type} (data : List α) (requiredFields : List (α → JSVal)) : List α :=
  data.filter (fun entry => requiredFields.all (fun f => hasRequiredField (f entry)))

/-- Raw lot row (per warehouse-location line) as consumed by the worker. -/
structure LotData where
  item : JSVal
  warehouse : JSVal
  location : JSVal
  description : JSVal
  vendor : JSVal
  onHand : JSVal
  committed : JSVal
  available : JSVal
deriving DecidableEq, Repr

/-- Raw item-master row as consumed by the worker. -/
structure ItemData where
  item : JSVal
  description : JSVal
  unitCost : JSVal
  primaryVendor : JSVal
  category : JSVal
  rpl : JSVal
  vendorCode : JSVal
deriving DecidableEq, Repr

/-- Raw usage-history row as consumed by the worker. -/
structure UsageData where
  item : JSVal
  warehouse : JSVal
  monthlyAvg : JSVal
  min : JSVal
  max : JSVal
deriving DecidableEq, Repr

/-- The reconciled inventory record emitted by the worker (the merged map
step of worker.ts).  Numeric fields are rationals, matching the JS numbers
the source computes; vendorCode keeps its dynamic shape. -/
structure MergedInventoryItem where
  id : String
  item : String
  warehouse : JSVal
  onHand : ℚ
  committed : ℚ
  available : ℚ
  locations : List JSVal
  description : JSVal
  vendor : JSVal
  vendorCode : JSVal
  unitCost : ℚ
  inventoryValue : ℚ
  monthlyAvg : ℚ
  min : ℚ
  max : ℚ
  leadTime : ℚ
  rpl : JSVal
  category : JSVal
deriving DecidableEq, Repr

/-- Result of calculateReorderQty.  daysOfSupply is none when the source
computes Infinity (no consumption history). -/
structure ReorderInfo where
  reorderPoint : ℚ
  targetStock : ℚ
  daysOfSupply : Option ℚ
  needsReorder : Bool
  suggested : ℚ
deriving DecidableEq, Repr

/-- The purchasing policy constants of index.tsx / domain constants. -/
structure PurchasingConstants where
  DAYS_IN_MONTH : ℚ
  SAFETY_STOCK_DAYS : ℚ
  TARGET_STOCK_MULTIPLIER : ℚ
  OVERSTOCK_MONTHS_THRESHOLD : ℚ
  LEAD_TIME_WARNING_DAYS : ℚ
  LONG_LEAD_TIME_SAFETY_FACTOR : ℚ

def PURCHASING_LOGIC_CONSTANTS : PurchasingConstants :=
  { DAYS_IN_MONTH := 30
    SAFETY_STOCK_DAYS := 14
    TARGET_STOCK_MULTIPLIER := 3/2
    OVERSTOCK_MONTHS_THRESHOLD := 6
    LEAD_TIME_WARNING_DAYS := 21
    LONG_LEAD_TIME_SAFETY_FACTOR := 1/2 }

/-- The static vendor lead-time table VENDOR_LEAD_TIMES of index.tsx
(domain constants); absent keys give none (undefined). -/
def VENDOR_LEAD_TIMES (code : String) : Option ℚ :=
  if code = "STASTA" then some 21
  else if code = "ELCIND" then some 35
  else if code = "FORFAS" then some 21
  else if code = "EDSMAN" then some 10
  else if code = "DEFAULT" then some 14
  else none

/-- The DEFAULT entry of the lead-time table, read the way the sources read
it (always present, value 14). -/
def defaultLeadTime : ℚ := 14

/-- The monthlyAvg local of calculateReorderQty: item.monthlyAvg || 0. -/
def monthlyAvgOf (item : MergedInventoryItem) : ℚ := jsOrQ item.monthlyAvg 0

/-- The dailyAvg local of calculateReorderQty. -/
def dailyAvgOf (item : MergedInventoryItem) : ℚ :=
  monthlyAvgOf item / PURCHASING_LOGIC_CONSTANTS.DAYS_IN_MONTH

/-- The leadTime local of calculateReorderQty: item.leadTime || default. -/
def leadTimeOf (item : MergedInventoryItem) : ℚ := jsOrQ item.leadTime defaultLeadTime

/-- The effectiveSafetyStockDays local of calculateReorderQty: the base
safety-stock days, plus ceil(leadTime × 0.5) extra days when the lead time
exceeds the default. -/
def effectiveSafetyStockDays (item : MergedInventoryItem) : ℚ :=
  if leadTimeOf item > defaultLeadTime then
    PURCHASING_LOGIC_CONSTANTS.SAFETY_STOCK_DAYS +
      (⌈leadTimeOf item * PURCHASING_LOGIC_CONSTANTS.LONG_LEAD_TIME_SAFETY_FACTOR⌉ : ℤ)
  else PURCHASING_LOGIC_CONSTANTS.SAFETY_STOCK_DAYS

/-- The calculatedReorderPoint local of calculateReorderQty. -/
def calculatedReorderPoint (item : MergedInventoryItem) : ℚ :=
  dailyAvgOf item * (leadTimeOf item + effectiveSafetyStockDays item)

/-- The reorderPoint local of calculateReorderQty: the ERP minimum when
positive, else the computed heuristic. -/
def reorderPointOf (item : MergedInventoryItem) : ℚ :=
  if item.min > 0 then item.min else calculatedReorderPoint item

/-- The targetStock local of calculateReorderQty: the ERP maximum when
positive, else reorderPoint × 1.5. -/
def targetStockOf (item : MergedInventoryItem) : ℚ :=
  if item.max > 0 then item.max
  else reorderPointOf item * PURCHASING_LOGIC_CONSTANTS.TARGET_STOCK_MULTIPLIER

/-- Embedding of calculateReorderQty from calculations.ts. -/
def calculateReorderQty (item : MergedInventoryItem) : ReorderInfo :=
  let dailyAvg := dailyAvgOf item
  let reorderPoint := reorderPointOf item
  let targetStock := targetStockOf item
  let daysOfSupply := if dailyAvg > 0 then some (item.available / dailyAvg) else none
  let needsReorder := decide (item.available ≤ reorderPoint)
  let suggested : ℚ :=
    if needsReorder then max 0 ((⌈targetStock - item.available⌉ : ℤ) : ℚ) else 0
  { reorderPoint := reorderPoint
    targetStock := targetStock
    daysOfSupply := daysOfSupply
    needsReorder := needsReorder
    suggested := suggested }

/-- The grouping key of a lot line in worker.ts, the dash-joined template
literal over String(lot.item) and the warehouse value. -/
def lotKey (lot : LotData) : String :=
  JSVal.jsToString lot.item ++ "-" ++ JSVal.jsToString lot.warehouse

/-- The stringified (item, warehouse) identity of a lot line: the item id
after String() coercion paired with the stringified warehouse. -/
def lotPair (lot : LotData) : String × String :=
  (JSVal.jsToString lot.item, JSVal.jsToString lot.warehouse)

/-- The key determined by a stringified (item, warehouse) pair. -/
def pairToKey (p : String × String) : String := p.1 ++ "-" ++ p.2

/-- Accumulator value of the lotGroups map of worker.ts. -/
structure LotGroup where
  item : String
  warehouse : JSVal
  description : JSVal
  vendor : JSVal
  onHand : ℚ
  committed : ℚ
  available : ℚ
  locations : List JSVal
deriving DecidableEq, Repr

/-- The fresh group created for an unseen key (zero quantities, empty
location set, the description/vendor of the creating lot line). -/
def initGroup (lot : LotData) : LotGroup :=
  { item := JSVal.jsToString lot.item
    warehouse := lot.warehouse
    description := lot.description
    vendor := lot.vendor
    onHand := 0
    committed := 0
    available := 0
    locations := [] }

/-- The per-line mutation of a group in worker.ts: add the normalized
quantities, insert a truthy location into the location set (insertion order,
no duplicates, as a JS Set), and fill description/vendor from the line when
the group value so far is falsy and the line value truthy. -/
def addLot (g : LotGroup) (lot : LotData) : LotGroup :=
  { g with
    onHand := g.onHand + parseNumeric lot.onHand
    committed := g.committed + parseNumeric lot.committed
    available := g.available + parseNumeric lot.available
    locations :=
      if lot.location.jsTruthy then
        if lot.location ∈ g.locations then g.locations else g.locations ++ [lot.location]
      else g.locations
    description :=
      if g.description.jsTruthy then g.description
      else if lot.description.jsTruthy then lot.description else g.description
    vendor :=
      if g.vendor.jsTruthy then g.vendor
      else if lot.vendor.jsTruthy then lot.vendor else g.vendor }

/-- First group stored under a key, in the insertion-ordered association list
that models the lotGroups Map. -/
def findGroup (groups : List (String × LotGroup)) (k : String) : Option LotGroup :=
  match groups with
  | [] => none
  | (k', g) :: rest => if k' = k then some g else findGroup rest k

/-- One iteration of the grouping loop of worker.ts: create the group for the
key of the line when absent (at the end, preserving Map insertion order),
then apply the per-line mutation to the group under that key. -/
def insertLot (groups : List (String × LotGroup)) (lot : LotData) : List (String × LotGroup) :=
  let k := lotKey lot
  match findGroup groups k with
  | some _ => groups.map (fun e => if e.1 = k then (e.1, addLot e.2 lot) else e)
  | none => groups ++ [(k, addLot (initGroup lot) lot)]

/-- The lotGroups map of worker.ts, as an insertion-ordered association list. -/
def buildLotGroups (lots : List LotData) : List (String × LotGroup) :=
  lots.foldl insertLot []

/-- Value stored under a key by a sequence of Map.set calls: the last entry
written wins, a missing key gives none. -/
def mapLookupLast {α : Type} (entries : List (String × α)) (k : String) : Option α :=
  ((entries.filter (fun e => e.1 = k)).getLast?).map (fun e => e.2)

/-- The itemsMap of worker.ts: valid item rows with a non-nullish item id,
keyed by String(item), last write winning. -/
def itemsMapOf (validItems : List ItemData) : List (String × ItemData) :=
  (validItems.filter (fun i => i.item.jsNotNullish)).map
    (fun i => (JSVal.jsToString i.item, i))

/-- The usageMap of worker.ts: valid usage rows with non-nullish item and
warehouse, keyed by the dash-joined template literal. -/
def usageMapOf (validUsage : List UsageData) : List (String × UsageData) :=
  (validUsage.filter (fun u => u.item.jsNotNullish && u.warehouse.jsNotNullish)).map
    (fun u => (JSVal.jsToString u.item ++ "-" ++ JSVal.jsToString u.warehouse, u))

/-- Field access through the itemDetails object of worker.ts, where a missed
lookup yields the empty object and hence undefined fields. -/
def itemField (o : Option ItemData) (f : ItemData → JSVal) : JSVal :=
  match o with
  | some i => f i
  | none => JSVal.undefined

/-- Field access through the usageDetails object of worker.ts. -/
def usageField (o : Option UsageData) (f : UsageData → JSVal) : JSVal :=
  match o with
  | some u => f u
  | none => JSVal.undefined

/-- Map.get of the vendor name → code index on a dynamic key: only a string
key that the index maps hits; everything else gives undefined. -/
def vendorMapGet (vmap : String → Option String) (v : JSVal) : JSVal :=
  match v with
  | .str s =>
      match vmap s with
      | some code => JSVal.str code
      | none => JSVal.undefined
  | _ => JSVal.undefined

/-- The leadTime expression of worker.ts:
(vendorCode && VENDOR_LEAD_TIMES[vendorCode]) || VENDOR_LEAD_TIMES[DEFAULT].
A falsy vendor code short-circuits to the default; a truthy one indexes the
table through string coercion of the key, an absent or falsy entry again
giving the default. -/
def resolveLeadTime (vendorCode : JSVal) : ℚ :=
  if vendorCode.jsTruthy then
    match VENDOR_LEAD_TIMES (JSVal.jsToString vendorCode) with
    | some q => jsOrQ q defaultLeadTime
    | none => defaultLeadTime
  else defaultLeadTime

/-- The merged map step of worker.ts, producing one ReconciledInventoryItem
from a lot group by joining item master and usage data.  The static
VENDOR_DETAILS directory enters only through its derived name → code index,
passed as vmap (every theorem about the step holds for an arbitrary index,
in particular for the one built from the shipped directory). -/
def mergeGroup (vmap : String → Option String) (itemsMap : List (String × ItemData))
    (usageMap : List (String × UsageData)) (g : LotGroup) : MergedInventoryItem :=
  let itemDetails := mapLookupLast itemsMap g.item
  let usageDetails := mapLookupLast usageMap (g.item ++ "-" ++ JSVal.jsToString g.warehouse)
  let unitCost := parseNumeric (itemField itemDetails ItemData.unitCost)
  let available := g.available
  let vendor :=
    JSVal.jsOr (JSVal.jsOr (itemField itemDetails ItemData.primaryVendor) g.vendor)
      (JSVal.str "Unknown")
  let vendorCode :=
    JSVal.jsOr (itemField itemDetails ItemData.vendorCode) (vendorMapGet vmap vendor)
  { id := g.item ++ "-" ++ JSVal.jsToString g.warehouse
    item := g.item
    warehouse := g.warehouse
    onHand := g.onHand
    committed := g.committed
    available := available
    locations := g.locations
    description := JSVal.jsOr g.description (itemField itemDetails ItemData.description)
    vendor := vendor
    vendorCode := vendorCode
    unitCost := unitCost
    inventoryValue := available * unitCost
    monthlyAvg := parseNumeric (usageField usageDetails UsageData.monthlyAvg)
    min := parseNumeric (usageField usageDetails UsageData.min)
    max := parseNumeric (usageField usageDetails UsageData.max)
    leadTime := resolveLeadTime vendorCode
    rpl := JSVal.jsOr (itemField itemDetails ItemData.rpl) (JSVal.str "")
    category := itemField itemDetails ItemData.category }

/-- Required-field projections for lot rows (item, warehouse). -/
def lotRequiredFields : List (LotData → JSVal) := [LotData.item, LotData.warehouse]

/-- Required-field projections for item rows (item). -/
def itemRequiredFields : List (ItemData → JSVal) := [ItemData.item]

/-- Required-field projections for usage rows (item, warehouse). -/
def usageRequiredFields : List (UsageData → JSVal) := [UsageData.item, UsageData.warehouse]

/-- The valid lot rows of a worker invocation. -/
def validLotsOf (lotData : List LotData) : List LotData :=
  filterData lotData lotRequiredFields

/-- The valid item rows of a worker invocation. -/
def validItemsOf (itemsData : List ItemData) : List ItemData :=
  filterData itemsData itemRequiredFields

/-- The valid usage rows of a worker invocation. -/
def validUsageOf (usageData : List UsageData) : List UsageData :=
  filterData usageData usageRequiredFields

/-- The reconciliation pipeline of the worker message handler: validate the
three inputs, short-circuit to the empty payload when no valid lot or no
valid usage row remains, else group the lot rows and merge each group. -/
def workerProcess (vmap : String → Option String) (lotData : List LotData)
    (itemsData : List ItemData) (usageData : List UsageData) : List MergedInventoryItem :=
  let validLots := validLotsOf lotData
  let validItems := validItemsOf itemsData
  let validUsage := validUsageOf usageData
  if validLots.length = 0 ∨ validUsage.length = 0 then []
  else
    (buildLotGroups validLots).map
      (fun e => mergeGroup vmap (itemsMapOf validItems) (usageMapOf validUsage) e.2)

/-- The message posted back by the worker. -/
inductive WorkerMsg where
  | success (payload : List MergedInventoryItem)
  | error (message : String)
deriving DecidableEq, Repr

/-- The worker onmessage handler: in the pure model the computation never
throws, so the catch branch of the source is unreachable and the reply is
always a success message. -/
def onmessage (vmap : String → Option String) (lotData : List LotData)
    (itemsData : List ItemData) (usageData : List UsageData) : WorkerMsg :=
  WorkerMsg.success (workerProcess vmap lotData itemsData usageData)

/-- A per-type header signature of the bulk-upload classifier in
useDataProcessor.ts: alias groups that must all match, alias groups that are
scored, and the minimum number of matched scored groups. -/
structure FileSignature where
  required : List (List String)
  opt : List (List String)
  minOpt : Nat
deriving DecidableEq, Repr

/-- The fileSignatures table of handleMassUpload, in declaration order. -/
def fileSignatures : List (String × FileSignature) :=
  [ ("po", ⟨[["PO", "po"]],
      [["Ord Date", "ordDate"], ["Open Total", "openTotal"], ["Open", "open"]], 1⟩)
  , ("sales", ⟨[["Customer Name"], ["Order"]], [["Wanted Date"]], 0⟩)
  , ("lot", ⟨[["On Hand", "onHand"], ["Available", "available"]],
      [["Committed", "committed"]], 0⟩)
  , ("items", ⟨[["Unit Loaded Cost", "Avg Cost", "unitCost"]],
      [["Primary Vendor", "primaryVendor"], ["Item Category", "category"]], 1⟩)
  , ("usage", ⟨[["MO Avg", "monthlyAvg"]], [["Min", "min"], ["Max", "max"]], 0⟩)
  , ("vendors", ⟨[["Vendor Code", "Vendor"], ["Vendor Name", "Name"]], [], 0⟩) ]

/-- The headersMatch helper of handleMassUpload: an alias group matches when
some alias occurs among the file headers. -/
def headersMatch (headers : List String) (group : List String) : Bool :=
  group.any (fun h => headers.contains h)

/-- All required alias groups of a signature match. -/
def requiredMet (sig : FileSignature) (headers : List String) : Bool :=
  sig.required.all (headersMatch headers)

/-- The optionalMetCount of handleMassUpload: how many scored alias groups
match. -/
def optionalMetCount (sig : FileSignature) (headers : List String) : Nat :=
  (sig.opt.filter (headersMatch headers)).length

/-- The score of a candidate type: required group count plus matched scored
group count. -/
def typeScore (sig : FileSignature) (headers : List String) : Nat :=
  sig.required.length + optionalMetCount sig headers

/-- Both gates of the classifier loop: every required group matches and the
matched scored group count reaches the minimum. -/
def passesGates (sig : FileSignature) (headers : List String) : Bool :=
  requiredMet sig headers && decide (optionalMetCount sig headers ≥ sig.minOpt)

/-- One iteration of the classifier loop: skip a type failing a gate, else
take it when it beats the best score so far strictly. -/
def classifyStep (headers : List String) (best : Option String × Nat)
    (entry : String × FileSignature) : Option String × Nat :=
  if passesGates entry.2 headers then
    if typeScore entry.2 headers > best.2 then (some entry.1, typeScore entry.2 headers)
    else best
  else best

/-- The identified type of a header row: the classifier loop of
handleMassUpload starting from no match and score 0. -/
def identifyFileType (headers : List String) : Option String :=
  (fileSignatures.foldl (classifyStep headers) (none, 0)).1

/-- Modelled from the spec words for the classifier (the refinement side of
the claim): the candidate types passing both gates, with their scores, in
declaration order. -/
def passingTypes (headers : List String) : List (String × Nat) :=
  fileSignatures.filterMap
    (fun e => if passesGates e.2 headers then some (e.1, typeScore e.2 headers) else none)

/-- Modelled from the spec words: the first entry of a scored list attaining
the maximum score (an earlier entry wins a tie against every later one). -/
def firstMaxAux : List (String × Nat) → Option (String × Nat)
  | [] => none
  | (t, s) :: rest =>
      match firstMaxAux rest with
      | none => some (t, s)
      | some (t2, s2) => if s2 > s then some (t2, s2) else some (t, s)

/-- Modelled from the spec words: among the types passing both gates the
maximum-scoring type wins, ties resolved in favor of the first-declared
type; no passing type means no classification. -/
def specClassify (headers : List String) : Option String :=
  (firstMaxAux (passingTypes headers)).map (fun e => e.1)

/-- The stringified (item, warehouse) identity of a reconciled record. -/
def mergedPair (r : MergedInventoryItem) : String × String :=
  (r.item, JSVal.jsToString r.warehouse)

/-- Reconciled-item fixture used by the concrete reorder theorems: the
quantities under test with neutral values elsewhere. -/
def mkItem (available monthlyAvg mi ma leadTime : ℚ) : MergedInventoryItem :=
  { id := "X-01", item := "X", warehouse := JSVal.str "01", onHand := available
    committed := 0, available := available, locations := [], description := JSVal.null
    vendor := JSVal.str "Unknown", vendorCode := JSVal.undefined, unitCost := 0
    inventoryValue := 0, monthlyAvg := monthlyAvg, min := mi, max := ma
    leadTime := leadTime, rpl := JSVal.str "", category := JSVal.undefined }

/-- Lot-row fixture with string identity fields and numeric quantities. -/
def mkLot (item warehouse : String) (onHand committed available : ℚ) : LotData :=
  { item := JSVal.str item, warehouse := JSVal.str warehouse, location := JSVal.null
    description := JSVal.null, vendor := JSVal.null, onHand := JSVal.num onHand
    committed := JSVal.num committed, available := JSVal.num available }

/-- Usage-row fixture with string identity fields and no usage figures. -/
def mkUsage (item warehouse : String) : UsageData :=
  { item := JSVal.str item, warehouse := JSVal.str warehouse
    monthlyAvg := JSVal.null, min := JSVal.null, max := JSVal.null }

/-- Two valid lot rows with distinct (item, warehouse) identities whose
dash-joined grouping keys collide ("A" / "B-C" and "A-B" / "C" both give
the key "A-B-C"). -/
def cexLot1 : LotData := mkLot "A" "B-C" 1 2 3

/-- Second half of the colliding pair of lot rows. -/
def cexLot2 : LotData := mkLot "A-B" "C" 10 20 30

/-- Valid usage row accompanying the collision fixture. -/
def cexUsage : UsageData := mkUsage "A" "B-C"

/-- Single valid lot row for the non-collision runs. -/
def simpleLot : LotData := mkLot "X" "01" 5 0 5

/-- Valid usage row matching simpleLot. -/
def simpleUsage : UsageData := mkUsage "X" "01"

/-- The reconciled record the worker produces from simpleLot joined with
simpleUsage, no item master and an empty vendor index, written as the merge
of the one-line lot group. -/
def simpleOutputRec : MergedInventoryItem :=
  mergeGroup (fun _ => none) (itemsMapOf (validItemsOf ([] : List ItemData)))
    (usageMapOf (validUsageOf [simpleUsage])) (addLot (initGroup simpleLot) simpleLot)

lemma calculateReorderQty_reorderPoint (item : MergedInventoryItem) :
    (calculateReorderQty item).reorderPoint = reorderPointOf item := rfl

lemma calculateReorderQty_targetStock (item : MergedInventoryItem) :
    (calculateReorderQty item).targetStock = targetStockOf item := rfl

lemma calculateReorderQty_needsReorder (item : MergedInventoryItem) :
    (calculateReorderQty item).needsReorder = decide (item.available ≤ reorderPointOf item) := rfl

lemma calculateReorderQty_suggested (item : MergedInventoryItem) :
    (calculateReorderQty item).suggested =
      if item.available ≤ reorderPointOf item then
        max 0 ((⌈targetStockOf item - item.available⌉ : ℤ) : ℚ)
      else 0 := by
  show (if decide (item.available ≤ reorderPointOf item) = true then _ else _) = _
  simp

/-- Claim C2 (reorder gate): on an item with available 50, min 0, max 0,
monthlyAvg 60 and leadTime 14, the reorder policy yields reorderPoint 56
(daily average 2 over 14 lead days plus 14 safety days), needsReorder true,
targetStock 84 (56 × 1.5) and suggested 34 (ceil of 84 − 50). -/
theorem fsi_c2_reorder_gate :
    (calculateReorderQty (mkItem 50 60 0 0 14)).reorderPoint = 56 ∧
    (calculateReorderQty (mkItem 50 60 0 0 14)).needsReorder = true ∧
    (calculateReorderQty (mkItem 50 60 0 0 14)).targetStock = 84 ∧
    (calculateReorderQty (mkItem 50 60 0 0 14)).suggested = 34 := by
  refine ⟨?_, ?_, ?_, ?_⟩ <;>
    simp [calculateReorderQty_reorderPoint, calculateReorderQty_targetStock,
      calculateReorderQty_needsReorder, calculateReorderQty_suggested,
      reorderPointOf, targetStockOf, calculatedReorderPoint,
      effectiveSafetyStockDays, dailyAvgOf, monthlyAvgOf, leadTimeOf, jsOrQ, mkItem,
      defaultLeadTime, PURCHASING_LOGIC_CONSTANTS] <;> norm_num

/-- Claim C3 (ERP override precedence): a positive ERP minimum becomes the
reorder point verbatim (the lead-time heuristic is bypassed), a positive ERP
maximum becomes the target stock, and with min 20 / max 40 the reorder flag
holds exactly when available ≤ 20. -/
theorem fsi_c3_erp_override (item : MergedInventoryItem) :
    (item.min > 0 → (calculateReorderQty item).reorderPoint = item.min) ∧
    (item.max > 0 → (calculateReorderQty item).targetStock = item.max) ∧
    (item.min = 20 → item.max = 40 →
      ((calculateReorderQty item).needsReorder = true ↔ item.available ≤ 20)) := by
  refine ⟨?_, ?_, ?_⟩
  · intro h
    simp [calculateReorderQty_reorderPoint, reorderPointOf, if_pos h]
  · intro h
    simp [calculateReorderQty_targetStock, targetStockOf, if_pos h]
  · intro h1 h2
    have : reorderPointOf item = 20 := by
      rw [reorderPointOf, h1]; norm_num
    rw [calculateReorderQty_needsReorder, this]
    simp

/-- Witness for C3 at min 20, max 40, available 10. -/
theorem fsi_c3_witness :
    (calculateReorderQty (mkItem 10 60 20 40 14)).reorderPoint = 20 ∧
    (calculateReorderQty (mkItem 10 60 20 40 14)).targetStock = 40 ∧
    ((calculateReorderQty (mkItem 10 60 20 40 14)).needsReorder = true ↔
      (mkItem 10 60 20 40 14).available ≤ 20) :=
  ⟨(fsi_c3_erp_override (mkItem 10 60 20 40 14)).1 (by norm_num [mkItem]),
   (fsi_c3_erp_override (mkItem 10 60 20 40 14)).2.1 (by norm_num [mkItem]),
   (fsi_c3_erp_override (mkItem 10 60 20 40 14)).2.2 rfl rfl⟩

/-- Claim C4, amended: above the default lead time the effective safety days
equal 14 + ceil(leadTime × 0.5); at leadTime 28 with no ERP minimum the
reorder point equals dailyAvg × (28 + 28), and it is strictly larger than
the no-boost value dailyAvg × (28 + 14) whenever the daily average is
positive (with a zero daily average both sides are 0). -/
theorem fsi_c4_amended (item : MergedInventoryItem) :
    (leadTimeOf item > defaultLeadTime →
      effectiveSafetyStockDays item = 14 + ((⌈leadTimeOf item * (1 / 2)⌉ : ℤ) : ℚ)) ∧
    (leadTimeOf item = 28 → ¬ item.min > 0 →
      (calculateReorderQty item).reorderPoint = dailyAvgOf item * (28 + 28) ∧
      (0 < dailyAvgOf item →
        (calculateReorderQty item).reorderPoint > dailyAvgOf item * (28 + 14))) := by
  constructor
  · intro h
    rw [effectiveSafetyStockDays, if_pos h]
    norm_num [PURCHASING_LOGIC_CONSTANTS]
  · intro h28 hmin
    have hesd : effectiveSafetyStockDays item = 28 := by
      rw [effectiveSafetyStockDays, if_pos (by rw [h28]; norm_num [defaultLeadTime])]
      rw [h28]
      norm_num [PURCHASING_LOGIC_CONSTANTS]
    have hrp : (calculateReorderQty item).reorderPoint = dailyAvgOf item * (28 + 28) := by
      rw [calculateReorderQty_reorderPoint, reorderPointOf, if_neg hmin,
        calculatedReorderPoint, hesd, h28]
    refine ⟨hrp, fun hpos => ?_⟩
    rw [hrp]
    have : (28 + 14 : ℚ) < 28 + 28 := by norm_num
    exact mul_lt_mul_of_pos_left this hpos

/-- Counterexample to C4 as stated: with leadTime 28, min 0 and a zero
monthly average the reorder point equals dailyAvg × (28 + 28) = 0, which is
not strictly larger than the no-boost value dailyAvg × (28 + 14) = 0. -/
theorem fsi_c4_counterexample :
    leadTimeOf (mkItem 100 0 0 0 28) = 28 ∧
    (mkItem 100 0 0 0 28).min = 0 ∧
    (calculateReorderQty (mkItem 100 0 0 0 28)).reorderPoint =
      dailyAvgOf (mkItem 100 0 0 0 28) * (28 + 28) ∧
    ¬ (calculateReorderQty (mkItem 100 0 0 0 28)).reorderPoint >
        dailyAvgOf (mkItem 100 0 0 0 28) * (28 + 14) := by
  refine ⟨by norm_num [leadTimeOf, jsOrQ, mkItem], rfl, ?_, ?_⟩ <;>
    simp [calculateReorderQty_reorderPoint, reorderPointOf, calculatedReorderPoint,
      effectiveSafetyStockDays, dailyAvgOf, monthlyAvgOf, leadTimeOf, jsOrQ, mkItem,
      defaultLeadTime, PURCHASING_LOGIC_CONSTANTS]

/-- Witness for the amended C4 at leadTime 28, monthlyAvg 60 (dailyAvg 2). -/
theorem fsi_c4_witness :
    leadTimeOf (mkItem 50 60 0 0 28) > defaultLeadTime ∧
    effectiveSafetyStockDays (mkItem 50 60 0 0 28) =
      14 + ((⌈leadTimeOf (mkItem 50 60 0 0 28) * (1 / 2)⌉ : ℤ) : ℚ) ∧
    (calculateReorderQty (mkItem 50 60 0 0 28)).reorderPoint =
      dailyAvgOf (mkItem 50 60 0 0 28) * (28 + 28) ∧
    (calculateReorderQty (mkItem 50 60 0 0 28)).reorderPoint >
      dailyAvgOf (mkItem 50 60 0 0 28) * (28 + 14) := by
  have hlt : leadTimeOf (mkItem 50 60 0 0 28) = 28 := by
    norm_num [leadTimeOf, jsOrQ, mkItem]
  have hd : 0 < dailyAvgOf (mkItem 50 60 0 0 28) := by
    norm_num [dailyAvgOf, monthlyAvgOf, jsOrQ, mkItem, PURCHASING_LOGIC_CONSTANTS]
  have hmin : ¬ (mkItem 50 60 0 0 28).min > 0 := by norm_num [mkItem]
  exact ⟨by rw [hlt]; norm_num [defaultLeadTime],
    (fsi_c4_amended (mkItem 50 60 0 0 28)).1 (by rw [hlt]; norm_num [defaultLeadTime]),
    ((fsi_c4_amended (mkItem 50 60 0 0 28)).2 hlt hmin).1,
    ((fsi_c4_amended (mkItem 50 60 0 0 28)).2 hlt hmin).2 hd⟩

/-- Claim C9 (implicit): the reorder flag can hold with a zero suggested
quantity — with ERP overrides 0 < max < available ≤ min the clamp
max(0, ceil(targetStock − available)) gives 0 — and for every item the
suggested quantity is a non-negative integer. -/
theorem fsi_c9_zero_suggested :
    ((calculateReorderQty (mkItem 50 60 60 10 14)).needsReorder = true ∧
     (calculateReorderQty (mkItem 50 60 60 10 14)).suggested = 0 ∧
     0 < (mkItem 50 60 60 10 14).max ∧
     (mkItem 50 60 60 10 14).max < (mkItem 50 60 60 10 14).available ∧
     (mkItem 50 60 60 10 14).available ≤ (mkItem 50 60 60 10 14).min) ∧
    ∀ item : MergedInventoryItem,
      0 ≤ (calculateReorderQty item).suggested ∧
      ∃ n : ℤ, (calculateReorderQty item).suggested = (n : ℚ) := by
  constructor
  · have hrp : reorderPointOf (mkItem 50 60 60 10 14) = 60 := by
      rw [reorderPointOf, if_pos (by norm_num [mkItem])]
      rfl
    have hts : targetStockOf (mkItem 50 60 60 10 14) = 10 := by
      rw [targetStockOf, if_pos (by norm_num [mkItem])]
      rfl
    refine ⟨?_, ?_, by norm_num [mkItem], by norm_num [mkItem], by norm_num [mkItem]⟩
    · rw [calculateReorderQty_needsReorder, hrp]
      norm_num [mkItem]
    · rw [calculateReorderQty_suggested, if_pos (by rw [hrp]; norm_num [mkItem]), hts]
      have : (⌈(10 : ℚ) - (mkItem 50 60 60 10 14).available⌉ : ℤ) = -40 := by
        rw [show (10 : ℚ) - (mkItem 50 60 60 10 14).available = ((-40 : ℤ) : ℚ) by
          norm_num [mkItem], Int.ceil_intCast]
      rw [this]
      norm_num
  · intro item
    rw [calculateReorderQty_suggested]
    split
    · exact ⟨le_max_left 0 _, max 0 ⌈targetStockOf item - item.available⌉, by push_cast; rfl⟩
    · exact ⟨le_refl 0, 0, by norm_num⟩

/-- Claim C5 (numeric normalization): null, undefined and the empty string
normalize to 0, any string whose comma-stripped form fails the numeric
conversion normalizes to 0 (the function is total and never raises by
construction), and the string with thousands separator "1,234.5" normalizes
to 1234.5. -/
theorem fsi_c5_numeric_normalization :
    parseNumeric JSVal.null = 0 ∧
    parseNumeric JSVal.undefined = 0 ∧
    parseNumeric (JSVal.str "") = 0 ∧
    (∀ s : String, jsNumber (stripCommas s) = none → parseNumeric (JSVal.str s) = 0) ∧
    parseNumeric (JSVal.str "1,234.5") = 1234.5 := by
  refine ⟨rfl, rfl, rfl, ?_, ?_⟩
  · intro s h
    by_cases hs : s = ""
    · simp [parseNumeric, hs]
    · simp [parseNumeric, hs, h]
  · have h : parseNumeric (JSVal.str "1,234.5") =
        digitsVal ['1', '2', '3', '4'] + digitsVal ['5'] / 10 ^ (1 : ℕ) := rfl
    rw [h]
    simp only [digitsVal, List.foldl_cons, List.foldl_nil,
      show ('1'.toNat - '0'.toNat : ℕ) = 1 from rfl,
      show ('2'.toNat - '0'.toNat : ℕ) = 2 from rfl,
      show ('3'.toNat - '0'.toNat : ℕ) = 3 from rfl,
      show ('4'.toNat - '0'.toNat : ℕ) = 4 from rfl,
      show ('5'.toNat - '0'.toNat : ℕ) = 5 from rfl]
    norm_num

/-- Witness for C5 on the non-numeric garbage string "abc". -/
theorem fsi_c5_witness :
    jsNumber (stripCommas "abc") = none ∧ parseNumeric (JSVal.str "abc") = 0 :=
  ⟨by decide, fsi_c5_numeric_normalization.2.2.2.1 "abc" (by decide)⟩

lemma firstMaxAux_mem {l : List (String × Nat)} {x : String × Nat}
    (h : firstMaxAux l = some x) : x ∈ l := by
  induction l with
  | nil => simp [firstMaxAux] at h
  | cons a l ih =>
    rw [firstMaxAux] at h
    revert h
    cases h2 : firstMaxAux l with
    | none =>
      intro h
      simp only [Option.some.injEq] at h
      simp [← h]
    | some y =>
      intro h
      by_cases hy : y.2 > a.2
      · have hyx : y = x := by
          have : some y = some x := by simpa [hy] using h
          simpa using this
        subst hyx
        exact List.mem_cons_of_mem a (ih h2)
      · have : some a = some x := by
          simpa [hy] using h
        simp only [Option.some.injEq] at this
        simp [← this]

lemma classify_foldl (headers : List String) (sigs : List (String × FileSignature))
    (best : Option String × Nat) :
    sigs.foldl (classifyStep headers) best =
      match firstMaxAux (sigs.filterMap (fun e =>
          if passesGates e.2 headers then some (e.1, typeScore e.2 headers) else none)) with
      | none => best
      | some x => if x.2 > best.2 then (some x.1, x.2) else best := by
  induction sigs generalizing best with
  | nil => simp [firstMaxAux]
  | cons e sigs ih =>
    rw [List.foldl_cons, List.filterMap_cons]
    by_cases hp : passesGates e.2 headers
    · rw [if_pos hp]
      have hstep : classifyStep headers best e =
          if typeScore e.2 headers > best.2 then (some e.1, typeScore e.2 headers) else best := by
        rw [classifyStep, if_pos hp]
      rw [hstep, ih]
      rw [firstMaxAux]
      cases h2 : firstMaxAux (sigs.filterMap (fun e =>
          if passesGates e.2 headers then some (e.1, typeScore e.2 headers) else none)) with
      | none =>
        by_cases hs : typeScore e.2 headers > best.2 <;> simp [hs]
      | some y =>
        by_cases hy : y.2 > typeScore e.2 headers
        · by_cases hs : typeScore e.2 headers > best.2
          · have : y.2 > best.2 := lt_trans hs hy
            simp [hy, hs, this]
          · simp [hy, hs]
        · by_cases hs : typeScore e.2 headers > best.2
          · simp [hy, hs]
          · have : ¬ y.2 > best.2 := by omega
            simp [hy, hs, this]
    · rw [if_neg hp]
      have hstep : classifyStep headers best e = best := by
        rw [classifyStep, if_neg hp]
      rw [hstep, ih]

lemma passingTypes_score_pos {headers : List String} {x : String × Nat}
    (h : x ∈ passingTypes headers) : 0 < x.2 := by
  rw [passingTypes] at h
  obtain ⟨e, he, hfe⟩ := List.mem_filterMap.mp h
  by_cases hp : passesGates e.2 headers
  · rw [if_pos hp] at hfe
    have hreq : 1 ≤ e.2.required.length := by
      simp only [fileSignatures, List.mem_cons, List.not_mem_nil, or_false] at he
      rcases he with h | h | h | h | h | h <;> subst h <;> decide
    simp only [Option.some.injEq] at hfe
    have : x.2 = typeScore e.2 headers := by rw [← hfe]
    rw [this, typeScore]
    omega
  · rw [if_neg hp] at hfe
    exact absurd hfe (Option.noConfusion)

lemma identifyFileType_eq_specClassify (headers : List String) :
    identifyFileType headers = specClassify headers := by
  rw [identifyFileType, specClassify, classify_foldl]
  cases h : firstMaxAux (passingTypes headers) with
  | none =>
    rw [passingTypes] at h
    rw [h]
    simp
  | some x =>
    have hpos : 0 < x.2 := passingTypes_score_pos (firstMaxAux_mem h)
    rw [passingTypes] at h
    rw [h]
    simp [hpos]

/-- Claim C7 (classifier): the classifier loop computes exactly the
spec-side selection (maximum-scoring type among those whose required groups
all match and whose matched optional count reaches minOptional, earliest
declaration winning ties); any assigned type passed both gates; and a file
matching all required groups of the items type (minOptional 1) but zero
optional groups is not classified at all. -/
theorem fsi_c7_classifier (headers : List String) :
    identifyFileType headers = specClassify headers ∧
    (∀ t, identifyFileType headers = some t →
      ∃ sig, (t, sig) ∈ fileSignatures ∧ requiredMet sig headers = true ∧
        optionalMetCount sig headers ≥ sig.minOpt) ∧
    (∀ sig, ("items", sig) ∈ fileSignatures →
      sig.minOpt = 1 ∧ requiredMet sig ["Unit Loaded Cost"] = true ∧
      optionalMetCount sig ["Unit Loaded Cost"] = 0) ∧
    identifyFileType ["Unit Loaded Cost"] = none := by
  refine ⟨identifyFileType_eq_specClassify headers, ?_, ?_, by decide⟩
  case refine_2 =>
    intro sig hsig
    simp [fileSignatures, Prod.mk.injEq] at hsig
    subst hsig
    refine ⟨rfl, by decide, by decide⟩
  intro t ht
  rw [identifyFileType_eq_specClassify, specClassify] at ht
  obtain ⟨x, hx, hxt⟩ := Option.map_eq_some'.mp ht
  have hmem := firstMaxAux_mem hx
  rw [passingTypes] at hmem
  obtain ⟨e, he, hfe⟩ := List.mem_filterMap.mp hmem
  by_cases hp : passesGates e.2 headers
  · rw [if_pos hp] at hfe
    simp only [Option.some.injEq] at hfe
    have ht1 : e.1 = t := by rw [← hxt, ← hfe]
    have hgate := hp
    rw [passesGates, Bool.and_eq_true, decide_eq_true_eq] at hgate
    exact ⟨e.2, by rw [← ht1]; exact he, hgate.1, hgate.2⟩
  · rw [if_neg hp] at hfe
    exact absurd hfe Option.noConfusion

/-- Witness for C7 on a header row the classifier assigns to the po type. -/
theorem fsi_c7_witness :
    identifyFileType ["PO", "Open"] = some "po" ∧
    ∃ sig, ("po", sig) ∈ fileSignatures ∧ requiredMet sig ["PO", "Open"] = true ∧
      optionalMetCount sig ["PO", "Open"] ≥ sig.minOpt :=
  ⟨by decide, (fsi_c7_classifier ["PO", "Open"]).2.1 "po" (by decide)⟩

/-- Claim C8 (empty required input): when validation leaves no lot row or no
usage row, the worker replies with a successful empty payload rather than an
error; an empty item-master set does not trigger the short-circuit (a run
with one valid lot row, one valid usage row and no item rows produces one
reconciled record). -/
theorem fsi_c8_empty_inputs :
    (∀ (vmap : String → Option String) (lotData : List LotData) (itemsData : List ItemData)
        (usageData : List UsageData),
      validLotsOf lotData = [] ∨ validUsageOf usageData = [] →
      onmessage vmap lotData itemsData usageData = WorkerMsg.success []) ∧
    onmessage (fun _ => none) [simpleLot] [] [simpleUsage] =
      WorkerMsg.success (workerProcess (fun _ => none) [simpleLot] [] [simpleUsage]) ∧
    (workerProcess (fun _ => none) [simpleLot] [] [simpleUsage]).length = 1 := by
  refine ⟨?_, rfl, rfl⟩
  intro vmap lotData itemsData usageData h
  have hlen : (validLotsOf lotData).length = 0 ∨ (validUsageOf usageData).length = 0 := by
    rcases h with h | h
    · left
      rw [h]
      rfl
    · right
      rw [h]
      rfl
  rw [onmessage, workerProcess]
  simp only [if_pos hlen]

/-- Witness for C8 applying the short-circuit to an empty lot table. -/
theorem fsi_c8_witness :
    onmessage (fun _ => none) [] [] [simpleUsage] = WorkerMsg.success [] :=
  fsi_c8_empty_inputs.1 (fun _ => none) [] [] [simpleUsage] (Or.inl rfl)

lemma addLot_item (g : LotGroup) (lot : LotData) : (addLot g lot).item = g.item := rfl

lemma addLot_warehouse (g : LotGroup) (lot : LotData) :
    (addLot g lot).warehouse = g.warehouse := rfl

lemma addLot_onHand (g : LotGroup) (lot : LotData) :
    (addLot g lot).onHand = g.onHand + parseNumeric lot.onHand := rfl

lemma addLot_committed (g : LotGroup) (lot : LotData) :
    (addLot g lot).committed = g.committed + parseNumeric lot.committed := rfl

lemma addLot_available (g : LotGroup) (lot : LotData) :
    (addLot g lot).available = g.available + parseNumeric lot.available := rfl

lemma foldl_addLot_item (ls : List LotData) (g : LotGroup) :
    (ls.foldl addLot g).item = g.item := by
  induction ls generalizing g with
  | nil => rfl
  | cons l ls ih => rw [List.foldl_cons, ih, addLot_item]

lemma foldl_addLot_warehouse (ls : List LotData) (g : LotGroup) :
    (ls.foldl addLot g).warehouse = g.warehouse := by
  induction ls generalizing g with
  | nil => rfl
  | cons l ls ih => rw [List.foldl_cons, ih, addLot_warehouse]

lemma foldl_addLot_onHand (ls : List LotData) (g : LotGroup) :
    (ls.foldl addLot g).onHand = g.onHand + (ls.map (fun l => parseNumeric l.onHand)).sum := by
  induction ls generalizing g with
  | nil => simp
  | cons l ls ih =>
    rw [List.foldl_cons, ih, addLot_onHand, List.map_cons, List.sum_cons]
    ring

lemma foldl_addLot_committed (ls : List LotData) (g : LotGroup) :
    (ls.foldl addLot g).committed =
      g.committed + (ls.map (fun l => parseNumeric l.committed)).sum := by
  induction ls generalizing g with
  | nil => simp
  | cons l ls ih =>
    rw [List.foldl_cons, ih, addLot_committed, List.map_cons, List.sum_cons]
    ring

lemma foldl_addLot_available (ls : List LotData) (g : LotGroup) :
    (ls.foldl addLot g).available =
      g.available + (ls.map (fun l => parseNumeric l.available)).sum := by
  induction ls generalizing g with
  | nil => simp
  | cons l ls ih =>
    rw [List.foldl_cons, ih, addLot_available, List.map_cons, List.sum_cons]
    ring

lemma findGroup_nil (k : String) : findGroup [] k = none := rfl

lemma findGroup_cons (k1 : String) (g : LotGroup) (rest : List (String × LotGroup))
    (k : String) :
    findGroup ((k1, g) :: rest) k = if k1 = k then some g else findGroup rest k := rfl

lemma findGroup_map_update (gs : List (String × LotGroup)) (k0 : String) (lot : LotData)
    (k : String) :
    findGroup (gs.map (fun e => if e.1 = k0 then (e.1, addLot e.2 lot) else e)) k =
      if k = k0 then (findGroup gs k).map (fun g => addLot g lot) else findGroup gs k := by
  induction gs with
  | nil => by_cases h : k = k0 <;> simp [findGroup_nil, h]
  | cons e gs ih =>
    obtain ⟨k1, g1⟩ := e
    by_cases h1 : k1 = k0 <;> by_cases h2 : k1 = k
    · subst h1
      subst h2
      simp [findGroup_cons]
    · subst h1
      have hk : ¬ k = k1 := fun h => h2 h.symm
      simp [findGroup_cons, h2, hk, ih]
    · subst h2
      simp [findGroup_cons, h1, fun h => h1 (h : k1 = k0)]
    · have hk2 : ¬ k1 = k := h2
      simp [findGroup_cons, h1, hk2, ih]

lemma findGroup_append (l1 l2 : List (String × LotGroup)) (k : String) :
    findGroup (l1 ++ l2) k =
      match findGroup l1 k with
      | some g => some g
      | none => findGroup l2 k := by
  induction l1 with
  | nil => simp [findGroup_nil]
  | cons e l1 ih =>
    obtain ⟨k1, g1⟩ := e
    by_cases h : k1 = k
    · simp [findGroup_cons, h]
    · simp [findGroup_cons, h, ih]

lemma findGroup_insertLot (gs : List (String × LotGroup)) (lot : LotData) (k : String) :
    findGroup (insertLot gs lot) k =
      if k = lotKey lot then some (addLot ((findGroup gs k).getD (initGroup lot)) lot)
      else findGroup gs k := by
  rw [insertLot]
  cases h : findGroup gs (lotKey lot) with
  | some g0 =>
    rw [findGroup_map_update]
    by_cases hk : k = lotKey lot
    · subst hk
      rw [if_pos rfl, if_pos rfl, h]
      rfl
    · rw [if_neg hk, if_neg hk]
  | none =>
    rw [findGroup_append]
    by_cases hk : k = lotKey lot
    · subst hk
      rw [h, if_pos rfl]
      simp [findGroup_cons, h]
    · cases h2 : findGroup gs k with
      | some g => simp [h2, if_neg hk]
      | none => simp [h2, if_neg hk, findGroup_cons, fun hh => hk (hh : k = lotKey lot), findGroup_nil,
          show ¬ lotKey lot = k from fun hh => hk hh.symm]

lemma findGroup_foldl (lots : List LotData) (acc : List (String × LotGroup)) (k : String) :
    findGroup (lots.foldl insertLot acc) k =
      match findGroup acc k with
      | some g => some ((lots.filter (fun l => decide (lotKey l = k))).foldl addLot g)
      | none =>
          match lots.filter (fun l => decide (lotKey l = k)) with
          | [] => none
          | l :: ls => some (ls.foldl addLot (addLot (initGroup l) l)) := by
  induction lots generalizing acc with
  | nil =>
    cases h : findGroup acc k with
    | some g => simp [h]
    | none => simp [h]
  | cons l lots ih =>
    rw [List.foldl_cons, ih]
    by_cases hk : lotKey l = k
    · have hfil : (l :: lots).filter (fun l => decide (lotKey l = k)) =
          l :: lots.filter (fun l => decide (lotKey l = k)) := by
        simp [List.filter_cons, hk]
      rw [hfil, findGroup_insertLot, if_pos hk.symm]
      cases h : findGroup acc k with
      | some g => simp [h, List.foldl_cons]
      | none => simp [h, List.foldl_cons]
    · have hfil : (l :: lots).filter (fun l => decide (lotKey l = k)) =
          lots.filter (fun l => decide (lotKey l = k)) := by
        simp [List.filter_cons, hk]
      rw [hfil, findGroup_insertLot, if_neg (fun hh => hk hh.symm)]

lemma keys_insertLot (gs : List (String × LotGroup)) (lot : LotData) :
    (insertLot gs lot).map Prod.fst =
      if (findGroup gs (lotKey lot)).isSome then gs.map Prod.fst
      else gs.map Prod.fst ++ [lotKey lot] := by
  rw [insertLot]
  cases h : findGroup gs (lotKey lot) with
  | some g0 =>
    simp only [h, Option.isSome_some, if_true, List.map_map]
    refine List.map_congr_left ?_
    intro e _
    by_cases he : e.1 = lotKey lot <;> simp [he]
  | none => simp [h]

lemma findGroup_isSome_iff (gs : List (String × LotGroup)) (k : String) :
    (findGroup gs k).isSome = true ↔ k ∈ gs.map Prod.fst := by
  induction gs with
  | nil => simp [findGroup_nil]
  | cons e gs ih =>
    obtain ⟨k1, g1⟩ := e
    by_cases h : k1 = k
    · simp [findGroup_cons, h]
    · simp [findGroup_cons, h, ih, Ne.symm h]

lemma keys_nodup_foldl (lots : List LotData) (acc : List (String × LotGroup))
    (hnd : (acc.map Prod.fst).Nodup) :
    ((lots.foldl insertLot acc).map Prod.fst).Nodup := by
  induction lots generalizing acc with
  | nil => exact hnd
  | cons l lots ih =>
    rw [List.foldl_cons]
    refine ih (insertLot acc l) ?_
    rw [keys_insertLot]
    cases h : (findGroup acc (lotKey l)).isSome with
    | true => simpa using hnd
    | false =>
      have hnm : lotKey l ∉ acc.map Prod.fst := by
        rw [← findGroup_isSome_iff]
        simp [h]
      simp [List.nodup_append, hnd, hnm]

lemma keys_build_nodup (lots : List LotData) :
    ((buildLotGroups lots).map Prod.fst).Nodup :=
  keys_nodup_foldl lots [] (by simp)

lemma findGroup_eq_of_mem {gs : List (String × LotGroup)}
    (hnd : (gs.map Prod.fst).Nodup) {k : String} {g : LotGroup} (h : (k, g) ∈ gs) :
    findGroup gs k = some g := by
  induction gs with
  | nil => simp at h
  | cons e gs ih =>
    obtain ⟨k1, g1⟩ := e
    rcases List.mem_cons.mp h with heq | hmem
    · obtain ⟨hk, hg⟩ := Prod.mk.injEq .. ▸ heq.symm
      rw [findGroup_cons, if_pos hk, hg]
    · have hk1 : k1 ≠ k := by
        intro hk
        subst hk
        have : k1 ∈ gs.map Prod.fst :=
          List.mem_map.mpr ⟨(k1, g), hmem, rfl⟩
        exact (List.nodup_cons.mp (by simpa using hnd)).1 this
      rw [findGroup_cons, if_neg hk1]
      exact ih (List.nodup_cons.mp (by simpa using hnd)).2 hmem

lemma findGroup_build (lots : List LotData) (k : String) :
    findGroup (buildLotGroups lots) k =
      match lots.filter (fun l => decide (lotKey l = k)) with
      | [] => none
      | l :: ls => some (ls.foldl addLot (addLot (initGroup l) l)) := by
  rw [buildLotGroups, findGroup_foldl]
  simp [findGroup_nil]

lemma build_origin (lots : List LotData) (e : String × LotGroup)
    (he : e ∈ buildLotGroups lots) :
    ∃ l ∈ lots, lotKey l = e.1 ∧ e.2.item = JSVal.jsToString l.item ∧
      e.2.warehouse = l.warehouse := by
  have hfind : findGroup (buildLotGroups lots) e.1 = some e.2 :=
    findGroup_eq_of_mem (keys_build_nodup lots) (by rw [Prod.mk.eta]; exact he)
  rw [findGroup_build] at hfind
  cases hfl : lots.filter (fun l => decide (lotKey l = e.1)) with
  | nil => rw [hfl] at hfind; simp at hfind
  | cons l ls =>
    rw [hfl] at hfind
    simp only [Option.some.injEq] at hfind
    have hlmem : l ∈ lots.filter (fun l => decide (lotKey l = e.1)) := by
      rw [hfl]; exact List.mem_cons_self l ls
    have hl := List.mem_filter.mp hlmem
    refine ⟨l, hl.1, by simpa using hl.2, ?_, ?_⟩
    · rw [← hfind, foldl_addLot_item, addLot_item]
      rfl
    · rw [← hfind, foldl_addLot_warehouse, addLot_warehouse]
      rfl

lemma mergeGroup_item (vmap : String → Option String) (im : List (String × ItemData))
    (um : List (String × UsageData)) (g : LotGroup) :
    (mergeGroup vmap im um g).item = g.item := rfl

lemma mergeGroup_warehouse (vmap : String → Option String) (im : List (String × ItemData))
    (um : List (String × UsageData)) (g : LotGroup) :
    (mergeGroup vmap im um g).warehouse = g.warehouse := rfl

lemma mergeGroup_onHand (vmap : String → Option String) (im : List (String × ItemData))
    (um : List (String × UsageData)) (g : LotGroup) :
    (mergeGroup vmap im um g).onHand = g.onHand := rfl

lemma mergeGroup_committed (vmap : String → Option String) (im : List (String × ItemData))
    (um : List (String × UsageData)) (g : LotGroup) :
    (mergeGroup vmap im um g).committed = g.committed := rfl

lemma mergeGroup_available (vmap : String → Option String) (im : List (String × ItemData))
    (um : List (String × UsageData)) (g : LotGroup) :
    (mergeGroup vmap im um g).available = g.available := rfl

lemma mergeGroup_leadTime (vmap : String → Option String) (im : List (String × ItemData))
    (um : List (String × UsageData)) (g : LotGroup) :
    ∃ vc, (mergeGroup vmap im um g).leadTime = resolveLeadTime vc :=
  ⟨_, rfl⟩

lemma mergedPair_mergeGroup (vmap : String → Option String) (im : List (String × ItemData))
    (um : List (String × UsageData)) (g : LotGroup) :
    mergedPair (mergeGroup vmap im um g) = (g.item, JSVal.jsToString g.warehouse) := rfl

lemma workerProcess_of_nonempty {vmap : String → Option String} {lotData : List LotData}
    {itemsData : List ItemData} {usageData : List UsageData}
    (hlot : validLotsOf lotData ≠ []) (husage : validUsageOf usageData ≠ []) :
    workerProcess vmap lotData itemsData usageData =
      (buildLotGroups (validLotsOf lotData)).map
        (fun e => mergeGroup vmap (itemsMapOf (validItemsOf itemsData))
          (usageMapOf (validUsageOf usageData)) e.2) := by
  rw [workerProcess]
  have h : ¬ ((validLotsOf lotData).length = 0 ∨ (validUsageOf usageData).length = 0) := by
    simp [List.length_eq_zero, hlot, husage]
  rw [if_neg h]

lemma mem_workerProcess {vmap : String → Option String} {lotData : List LotData}
    {itemsData : List ItemData} {usageData : List UsageData} {r : MergedInventoryItem}
    (h : r ∈ workerProcess vmap lotData itemsData usageData) :
    ∃ e ∈ buildLotGroups (validLotsOf lotData),
      r = mergeGroup vmap (itemsMapOf (validItemsOf itemsData))
        (usageMapOf (validUsageOf usageData)) e.2 := by
  rw [workerProcess] at h
  by_cases hc : (validLotsOf lotData).length = 0 ∨ (validUsageOf usageData).length = 0
  · rw [if_pos hc] at h
    simp at h
  · rw [if_neg hc] at h
    obtain ⟨e, he, hr⟩ := List.mem_map.mp h
    exact ⟨e, he, hr.symm⟩

lemma vendorLeadTimes_values {s : String} {q : ℚ} (h : VENDOR_LEAD_TIMES s = some q) :
    q = 21 ∨ q = 35 ∨ q = 10 ∨ q = 14 := by
  rw [VENDOR_LEAD_TIMES] at h
  split_ifs at h <;> simp_all

lemma resolveLeadTime_range (vc : JSVal) :
    resolveLeadTime vc = 10 ∨ resolveLeadTime vc = 14 ∨
      resolveLeadTime vc = 21 ∨ resolveLeadTime vc = 35 := by
  rw [resolveLeadTime]
  by_cases ht : vc.jsTruthy
  · rw [if_pos ht]
    cases h : VENDOR_LEAD_TIMES (JSVal.jsToString vc) with
    | none => right; left; rfl
    | some q =>
      rcases vendorLeadTimes_values h with hq | hq | hq | hq <;> subst hq <;>
        norm_num [jsOrQ, defaultLeadTime]
  · rw [if_neg ht]
    right
    left
    rfl

/-- Claim C10 (implicit): every reconciled record carries a lead time drawn
from the static vendor table (10, 21, 35) or the default 14 — hence strictly
positive — so the reorder-engine fallback item.leadTime || default leaves a
reconciler-produced lead time unchanged. -/
theorem fsi_c10_lead_time (vmap : String → Option String) (lotData : List LotData)
    (itemsData : List ItemData) (usageData : List UsageData) (r : MergedInventoryItem)
    (h : r ∈ workerProcess vmap lotData itemsData usageData) :
    (r.leadTime = 10 ∨ r.leadTime = 14 ∨ r.leadTime = 21 ∨ r.leadTime = 35) ∧
    0 < r.leadTime ∧ jsOrQ r.leadTime defaultLeadTime = r.leadTime := by
  obtain ⟨e, _, hr⟩ := mem_workerProcess h
  obtain ⟨vc, hvc⟩ := mergeGroup_leadTime vmap (itemsMapOf (validItemsOf itemsData))
    (usageMapOf (validUsageOf usageData)) e.2
  have hrange : r.leadTime = 10 ∨ r.leadTime = 14 ∨ r.leadTime = 21 ∨ r.leadTime = 35 := by
    rw [hr, hvc]
    exact resolveLeadTime_range vc
  have hpos : 0 < r.leadTime := by
    rcases hrange with hq | hq | hq | hq <;> rw [hq] <;> norm_num
  refine ⟨hrange, hpos, ?_⟩
  rw [jsOrQ, if_neg (by exact ne_of_gt hpos)]

/-- Witness for C10 on the concrete single-lot run. -/
theorem fsi_c10_witness :
    simpleOutputRec ∈ workerProcess (fun _ => none) [simpleLot] [] [simpleUsage] ∧
    (simpleOutputRec.leadTime = 10 ∨ simpleOutputRec.leadTime = 14 ∨
      simpleOutputRec.leadTime = 21 ∨ simpleOutputRec.leadTime = 35) ∧
    0 < simpleOutputRec.leadTime ∧
    jsOrQ simpleOutputRec.leadTime defaultLeadTime = simpleOutputRec.leadTime := by
  have hmem : simpleOutputRec ∈ workerProcess (fun _ => none) [simpleLot] [] [simpleUsage] :=
    List.mem_singleton_self _
  exact ⟨hmem, fsi_c10_lead_time _ _ _ _ _ hmem⟩

/-- Claim C6 (validator drop rule): the validator keeps exactly the records
whose required fields are all present and, when strings, non-blank after
trimming; a lot row with a blank or whitespace-only warehouse is therefore
dropped, and every record the reconciler emits has a warehouse that passes
the required-field test (no group keyed on a blank warehouse exists). -/
theorem fsi_c6_validator :
    (∀ {α : Type} (data : List α) (req : List (α → JSVal)) (e : α),
      e ∈ filterData data req ↔ e ∈ data ∧ ∀ f ∈ req, hasRequiredField (f e) = true) ∧
    (∀ (l : LotData) (s : String), l.warehouse = JSVal.str s → jsTrim s = "" →
      ∀ lotData : List LotData, l ∉ validLotsOf lotData) ∧
    (∀ (vmap : String → Option String) (lotData : List LotData) (itemsData : List ItemData)
        (usageData : List UsageData) (r : MergedInventoryItem),
      r ∈ workerProcess vmap lotData itemsData usageData →
      hasRequiredField r.warehouse = true) := by
  have hchar : ∀ {α : Type} (data : List α) (req : List (α → JSVal)) (e : α),
      e ∈ filterData data req ↔ e ∈ data ∧ ∀ f ∈ req, hasRequiredField (f e) = true := by
    intro α data req e
    rw [filterData, List.mem_filter]
    simp [List.all_eq_true]
  refine ⟨hchar, ?_, ?_⟩
  · intro l s hws htrim lotData hmem
    have h := ((hchar lotData lotRequiredFields l).mp hmem).2 LotData.warehouse
      (by simp [lotRequiredFields])
    rw [hws] at h
    simp [hasRequiredField, htrim] at h
  · intro vmap lotData itemsData usageData r hr
    obtain ⟨e, he, hrm⟩ := mem_workerProcess hr
    obtain ⟨l, hl, _, _, hw⟩ := build_origin _ e he
    have hfield := ((hchar lotData lotRequiredFields l).mp hl).2 LotData.warehouse
      (by simp [lotRequiredFields])
    rw [hrm, mergeGroup_warehouse, hw]
    exact hfield

/-- Witness for C6: a whitespace-warehouse lot row is dropped, and the
record of the concrete single-lot run carries a valid warehouse. -/
theorem fsi_c6_witness :
    mkLot "X" "  " 0 0 0 ∉ validLotsOf [mkLot "X" "  " 0 0 0] ∧
    hasRequiredField simpleOutputRec.warehouse = true :=
  ⟨fsi_c6_validator.2.1 (mkLot "X" "  " 0 0 0) "  " rfl (by decide) [mkLot "X" "  " 0 0 0],
   fsi_c6_validator.2.2 (fun _ => none) [simpleLot] [] [simpleUsage] simpleOutputRec
     (List.mem_singleton_self _)⟩

lemma countP_eq_one_of_nodup_mem {l : List String} {K : String} (hnd : l.Nodup)
    (hK : K ∈ l) : l.countP (fun x => decide (x = K)) = 1 := by
  induction l with
  | nil => simp at hK
  | cons a l ih =>
    rw [List.countP_cons]
    rcases List.mem_cons.mp hK with h | h
    · subst h
      have hnin : K ∉ l := (List.nodup_cons.mp hnd).1
      have hz : l.countP (fun x => decide (x = K)) = 0 := by
        rw [List.countP_eq_zero]
        intro x hx
        simp only [decide_eq_true_eq]
        intro hxa
        exact hnin (hxa ▸ hx)
      simp [hz]
    · have ha : ¬ (a = K) := by
        intro haK
        exact (List.nodup_cons.mp hnd).1 (haK ▸ h)
      rw [ih (List.nodup_cons.mp hnd).2 h]
      simp [ha]

/-- Claim C1, amended: presuming (as the collision counterexample forces)
that distinct stringified (item, warehouse) identities among the valid lot
rows produce distinct dash-joined grouping keys, and that at least one valid
usage row exists (otherwise the documented empty-input short-circuit
applies), the reconciler emits exactly one record per (item, warehouse)
identity present in the valid lot rows, and that record sums the normalized
onHand, committed and available over all valid lot lines with that identity,
never a proper subset. -/
theorem fsi_c1_amended (vmap : String → Option String) (lotData : List LotData)
    (itemsData : List ItemData) (usageData : List UsageData) (p : String × String)
    (hinj : ∀ l1 ∈ validLotsOf lotData, ∀ l2 ∈ validLotsOf lotData,
      lotKey l1 = lotKey l2 → lotPair l1 = lotPair l2)
    (husage : validUsageOf usageData ≠ [])
    (hp : (validLotsOf lotData).filter (fun l => decide (lotPair l = p)) ≠ []) :
    ((workerProcess vmap lotData itemsData usageData).filter
        (fun r => decide (mergedPair r = p))).length = 1 ∧
    ∀ r ∈ workerProcess vmap lotData itemsData usageData, mergedPair r = p →
      r.onHand = (((validLotsOf lotData).filter (fun l => decide (lotPair l = p))).map
          (fun l => parseNumeric l.onHand)).sum ∧
      r.committed = (((validLotsOf lotData).filter (fun l => decide (lotPair l = p))).map
          (fun l => parseNumeric l.committed)).sum ∧
      r.available = (((validLotsOf lotData).filter (fun l => decide (lotPair l = p))).map
          (fun l => parseNumeric l.available)).sum := by
  have hK : ∀ l : LotData, lotKey l = pairToKey (lotPair l) := fun l => rfl
  obtain ⟨l0, hl0mem, hl0p⟩ : ∃ l ∈ validLotsOf lotData, lotPair l = p := by
    cases hfl : (validLotsOf lotData).filter (fun l => decide (lotPair l = p)) with
    | nil => exact absurd hfl hp
    | cons a as =>
      have hm := List.mem_filter.mp (hfl ▸ List.mem_cons_self a as)
      exact ⟨a, hm.1, by simpa using hm.2⟩
  have hlotsne : validLotsOf lotData ≠ [] := by
    intro h
    exact hp (by rw [h]; rfl)
  have hkey_iff : ∀ l ∈ validLotsOf lotData, (lotKey l = pairToKey p ↔ lotPair l = p) := by
    intro l hl
    constructor
    · intro hk
      have hk0 : lotKey l = lotKey l0 := by
        rw [hk, hK l0, hl0p]
      exact (hinj l hl l0 hl0mem hk0).trans hl0p
    · intro hpair
      rw [hK l, hpair]
  have hfil_eq : (validLotsOf lotData).filter (fun l => decide (lotKey l = pairToKey p)) =
      (validLotsOf lotData).filter (fun l => decide (lotPair l = p)) := by
    apply List.filter_congr
    intro l hl
    simp [hkey_iff l hl]
  rw [workerProcess_of_nonempty hlotsne husage]
  have horigin := build_origin (validLotsOf lotData)
  have hnd := keys_build_nodup (validLotsOf lotData)
  have hpt : ∀ e ∈ buildLotGroups (validLotsOf lotData),
      ((e.2.item, JSVal.jsToString e.2.warehouse) = p ↔ e.1 = pairToKey p) := by
    intro e he
    obtain ⟨l, hlmem, hlk, hitem, hwh⟩ := horigin e he
    have hgp : (e.2.item, JSVal.jsToString e.2.warehouse) = lotPair l := by
      rw [hitem, hwh]
      rfl
    rw [hgp, ← hlk]
    exact (hkey_iff l hlmem).symm
  constructor
  · rw [← List.countP_eq_length_filter, List.countP_map]
    have hcongr : ∀ e ∈ buildLotGroups (validLotsOf lotData),
        ((fun r => decide (mergedPair r = p)) ∘
          (fun e => mergeGroup vmap (itemsMapOf (validItemsOf itemsData))
            (usageMapOf (validUsageOf usageData)) e.2)) e = true ↔
        (fun x => decide (x.1 = pairToKey p)) e = true := by
      intro e he
      simp only [Function.comp_apply, mergedPair_mergeGroup, decide_eq_true_eq]
      exact hpt e he
    rw [List.countP_congr hcongr]
    have hkeymem : pairToKey p ∈ (buildLotGroups (validLotsOf lotData)).map Prod.fst := by
      rw [← findGroup_isSome_iff, findGroup_build, hfil_eq]
      cases hfl : (validLotsOf lotData).filter (fun l => decide (lotPair l = p)) with
      | nil => exact absurd hfl hp
      | cons a as => simp
    have hone := countP_eq_one_of_nodup_mem hnd hkeymem
    rw [List.countP_map] at hone
    exact hone
  · intro r hr hrp
    obtain ⟨e, he, hre⟩ := List.mem_map.mp hr
    have hep : e.1 = pairToKey p := by
      refine (hpt e he).mp ?_
      rw [← mergedPair_mergeGroup vmap (itemsMapOf (validItemsOf itemsData))
        (usageMapOf (validUsageOf usageData)) e.2, hre, hrp]
    have hfind : findGroup (buildLotGroups (validLotsOf lotData)) (pairToKey p) = some e.2 := by
      rw [← hep]
      exact findGroup_eq_of_mem hnd (by rw [Prod.mk.eta]; exact he)
    rw [findGroup_build, hfil_eq] at hfind
    cases hfl : (validLotsOf lotData).filter (fun l => decide (lotPair l = p)) with
    | nil => exact absurd hfl hp
    | cons l1 ls =>
      rw [hfl] at hfind
      simp only [Option.some.injEq] at hfind
      have hon : r.onHand = ((l1 :: ls).map (fun l => parseNumeric l.onHand)).sum := by
        rw [← hre, mergeGroup_onHand, ← hfind, foldl_addLot_onHand, addLot_onHand,
          List.map_cons, List.sum_cons]
        show (0 : ℚ) + parseNumeric l1.onHand + _ = _
        ring
      have hcom : r.committed = ((l1 :: ls).map (fun l => parseNumeric l.committed)).sum := by
        rw [← hre, mergeGroup_committed, ← hfind, foldl_addLot_committed, addLot_committed,
          List.map_cons, List.sum_cons]
        show (0 : ℚ) + parseNumeric l1.committed + _ = _
        ring
      have hav : r.available = ((l1 :: ls).map (fun l => parseNumeric l.available)).sum := by
        rw [← hre, mergeGroup_available, ← hfind, foldl_addLot_available, addLot_available,
          List.map_cons, List.sum_cons]
        show (0 : ℚ) + parseNumeric l1.available + _ = _
        ring
      exact ⟨hon, hcom, hav⟩

/-- Counterexample to C1 as stated: two valid lot rows with distinct
(item, warehouse) identities — ("A", "B-C") and ("A-B", "C") — collide on
the dash-joined grouping key "A-B-C", so the reconciler emits a single
record instead of one per identity, and that record sums the quantities of
both identities (onHand 1 + 10 = 11). -/
theorem fsi_c1_counterexample :
    cexLot1 ∈ validLotsOf [cexLot1, cexLot2] ∧
    cexLot2 ∈ validLotsOf [cexLot1, cexLot2] ∧
    lotPair cexLot1 ≠ lotPair cexLot2 ∧
    (workerProcess (fun _ => none) [cexLot1, cexLot2] [] [cexUsage]).length = 1 ∧
    (workerProcess (fun _ => none) [cexLot1, cexLot2] [] [cexUsage]).map
      (fun r => r.onHand) = [11] := by
  refine ⟨by decide, by decide, by decide, rfl, ?_⟩
  have h : (workerProcess (fun _ => none) [cexLot1, cexLot2] [] [cexUsage]).map
      (fun r => r.onHand) =
      [0 + parseNumeric cexLot1.onHand + parseNumeric cexLot2.onHand] := rfl
  rw [h]
  norm_num [cexLot1, cexLot2, mkLot, parseNumeric]

/-- Witness for the amended C1 on a collision-free run (the same valid lot
line twice, identity ("A", "B-C")). -/
theorem fsi_c1_witness :
    validUsageOf [cexUsage] ≠ [] ∧
    (validLotsOf [cexLot1, cexLot1]).filter
      (fun l => decide (lotPair l = ("A", "B-C"))) ≠ [] ∧
    (((workerProcess (fun _ => none) [cexLot1, cexLot1] [] [cexUsage]).filter
        (fun r => decide (mergedPair r = ("A", "B-C")))).length = 1 ∧
      ∀ r ∈ workerProcess (fun _ => none) [cexLot1, cexLot1] [] [cexUsage],
        mergedPair r = ("A", "B-C") →
        r.onHand = (((validLotsOf [cexLot1, cexLot1]).filter
            (fun l => decide (lotPair l = ("A", "B-C")))).map
            (fun l => parseNumeric l.onHand)).sum ∧
        r.committed = (((validLotsOf [cexLot1, cexLot1]).filter
            (fun l => decide (lotPair l = ("A", "B-C")))).map
            (fun l => parseNumeric l.committed)).sum ∧
        r.available = (((validLotsOf [cexLot1, cexLot1]).filter
            (fun l => decide (lotPair l = ("A", "B-C")))).map
            (fun l => parseNumeric l.available)).sum) :=
  ⟨by decide, by decide,
   fsi_c1_amended (fun _ => none) [cexLot1, cexLot1] [] [cexUsage] ("A", "B-C")
     (by decide) (by decide) (by decide)⟩
